import Mathlib

/-!
Verification development for the SoundCanvas audio-production core
(`src/audio-producer/`).  The Python source is shallowly embedded:

* floating-point sample values are modelled as exact rationals `ℚ`
  (reals `ℝ` where the code uses transcendental functions);
* numpy buffers are modelled as `List ℚ` or as functions `ℕ → ℚ`
  restricted to the buffer length;
* Python `int(...)` / numpy `.astype(int…)` conversions, which truncate
  toward zero, are modelled by `truncQ`;
* fallible code is modelled by `Option` / explicit success booleans.
-/

/-- Truncation toward zero of a rational: the semantics of Python `int(x)`
and of numpy float→int casts (`.astype(np.int16)` etc.). -/
def truncQ (q : ℚ) : ℤ :=
  if 0 ≤ q then ⌊q⌋ else ⌈q⌉

/-- Truncation toward zero, clamped to `ℕ`.  Used where the Python code
turns a float into an array length or index (all such values are
nonnegative on the paths modelled here). -/
def pyIntNat (q : ℚ) : ℕ :=
  (truncQ q).toNat

/-- Model of `np.clip(x, -1.0, 1.0)` applied sample-wise in `save_wav`
(`stem_mixer.py` line 168). -/
def clip (x : ℚ) : ℚ :=
  min (max x (-1)) 1

/-- Peak (maximum absolute sample value) of a buffer, the model of
`np.abs(buf).max()`.  The fold starts at `0`; since every `|x|` is
nonnegative this agrees with numpy's maximum on nonempty buffers. -/
def peakAbs {α : Type} [LinearOrderedField α] (l : List α) : α :=
  l.foldl (fun m x => max m |x|) 0

/-- Peak of a buffer represented as a function on sample indices,
restricted to the first `n` samples. -/
def bufPeak {α : Type} [LinearOrderedField α] (f : ℕ → α) (n : ℕ) : α :=
  peakAbs ((List.range n).map f)

/-! ### Audio buffer I/O (`stem_mixer.py`, `save_wav` / `load_wav`)

`save_wav` (lines 165-173) clips the float buffer to `[-1, 1]`, scales by
`32767` and casts to `int16` (a cast that truncates toward zero);
`load_wav` (lines 146-162) divides an `int16` buffer by `32768.0`. -/

/-- Quantization of one sample by `save_wav`: clip to `[-1,1]`, scale by
`32767`, truncate toward zero (numpy `.astype(np.int16)`; the scaled value
lies in `[-32767, 32767]`, so no wrapping occurs). -/
def save_wav_sample (x : ℚ) : ℤ :=
  truncQ (clip x * 32767)

/-- Decoding of one `int16` sample by `load_wav`: divide by `32768.0`. -/
def load_wav_sample (n : ℤ) : ℚ :=
  (n : ℚ) / 32768

/-- One sample after a `save_wav` / `load_wav` round trip. -/
def save_load_sample (x : ℚ) : ℚ :=
  load_wav_sample (save_wav_sample x)

/-- A whole buffer after a `save_wav` / `load_wav` round trip (both
functions act sample-wise; stereo channels are handled identically). -/
def save_load_buffer (l : List ℚ) : List ℚ :=
  l.map save_load_sample

/-! ### Genre → preset resolution (`mix/schema.py`, `get_preset_for_genre`)

`get_preset_for_genre` (lines 137-167) resolves a free-form genre string
through a fixed dictionary and defaults to `'house'`; the preset file of
that name is then loaded from disk (external I/O, not modelled). -/

/-- The literal `genre_map` dictionary of `get_preset_for_genre`
(`mix/schema.py` lines 149-164). -/
def genre_map : List (String × String) :=
  [("Rap", "rap"), ("rap", "rap"), ("RAP", "rap"),
   ("House", "house"), ("house", "house"), ("HOUSE", "house"),
   ("R&B", "rnb"), ("RnB", "rnb"), ("rnb", "rnb"), ("RNB", "rnb"),
   ("EDM Drop", "house"), ("EDM Chill", "rnb"),
   ("EDM_DROP", "house"), ("EDM_CHILL", "rnb")]

/-- Model of `genre_map.get(genre, 'house')`: the preset name that
`get_preset_for_genre` resolves a genre string to. -/
def get_preset_name (genre : String) : String :=
  match genre_map.find? (fun p => p.1 == genre) with
  | some p => p.2
  | none => "house"

/-! ### MIDI-based sidechain envelope
(`stem_mixer.py`, `create_sidechain_envelope_from_midi`, lines 59-143)

`parse_kick_events_from_midi` yields a list of kick-event times in
seconds (nonnegative, since MIDI delta times are nonnegative); the
envelope function converts each to a start sample with `int(t * rate)`,
computes attack/hold/release lengths in samples, and for every kick
writes a three-phase duck into an all-ones array, combining with `min`. -/

/-- Conversion of a time in milliseconds to samples:
`int((ms / 1000.0) * sample_rate)` (lines 95-97). -/
def msToSamples (ms : ℚ) (rate : ℕ) : ℕ :=
  pyIntNat (ms / 1000 * rate)

/-- Value written for a single kick at phase offset `off` from the kick's
start sample (lines 106-141): a linear attack ramp for `off < A`, a flat
hold at `1 - amount` for `A ≤ off < A + H`, and a release ramp
`1 - amount * (1 - progress)` for `A + H ≤ off`.  It is only consulted
for `off < A + H + R`. -/
def duckValue (amount : ℚ) (A H R : ℕ) (off : ℕ) : ℚ :=
  if off < A then 1 - ((off : ℚ) / (A : ℚ)) * amount
  else if off < A + H then 1 - amount
  else 1 - amount * (1 - ((off - (A + H) : ℕ) : ℚ) / (R : ℚ))

/-- Effect of one kick event on the envelope (the body of the
`for kick_time in kick_times` loop, lines 100-141): a kick starting at or
beyond the buffer end is skipped (`continue`, line 103); otherwise every
sample of the three phases that lies inside the buffer is replaced by the
minimum of its current value and the duck value. -/
def applyKick (total : ℕ) (amount : ℚ) (A H R : ℕ)
    (env : ℕ → ℚ) (start : ℕ) : ℕ → ℚ :=
  if total ≤ start then env
  else fun s =>
    if start ≤ s ∧ s < total ∧ s - start < A + H + R then
      min (env s) (duckValue amount A H R (s - start))
    else env s

/-- The individual three-phase ducking curve of one kick event, extended
by `1` (no ducking) outside its support; the envelope combines these
curves point-wise by `min`. -/
def kickCurve (total : ℕ) (amount : ℚ) (A H R : ℕ) (start s : ℕ) : ℚ :=
  if start ≤ s ∧ s < total ∧ s - start < A + H + R then
    duckValue amount A H R (s - start)
  else 1

/-- Model of `create_sidechain_envelope_from_midi` (lines 59-143) as a
function of the parsed kick-event times.  With no kick events the
all-ones envelope is returned (line 86); otherwise each kick time is
converted to a start sample by `int(kick_time * sample_rate)` (line 101)
and its duck is folded into the all-ones envelope.  The envelope is
`np.ones(int(duration_seconds * sample_rate))`; indices at or beyond that
length carry the untouched value `1`. -/
def create_sidechain_envelope_from_midi (kickTimes : List ℚ)
    (durationSeconds : ℚ) (rate : ℕ) (amount : ℚ)
    (attackMs holdMs releaseMs : ℚ) : ℕ → ℚ :=
  if kickTimes = [] then fun _ => 1
  else
    (kickTimes.map (fun t => pyIntNat (t * rate))).foldl
      (applyKick (pyIntNat (durationSeconds * rate)) amount
        (msToSamples attackMs rate) (msToSamples holdMs rate)
        (msToSamples releaseMs rate))
      (fun _ => 1)

/-! ### Audio validator (`audio_validation.py`, `validate_audio_file`)

`validate_audio_file` (lines 18-96) runs its checks in order —
existence, file size, WAV header (frames, rate), duration, RMS — and
returns `(False, reason)` at the first failing check.

The RMS checks compare `rms = sqrt(mean(data**2))` with zero and
`20*log10(rms)` with `min_rms_db`.  Since `x ↦ 20*log10(sqrt(x))` is
strictly monotone, `rms == 0` is equivalent to `mean(data**2) == 0` and
`20*log10(rms) < min_rms_db` is equivalent to
`mean(data**2) < 10^(min_rms_db/10)`; the model therefore works with the
mean square of the samples and takes the threshold as a mean-square value
`minMeanSq = 10^(min_rms_db/10)` (for the default `-60.0 dB`,
`minMeanSq = 1/1000000`). -/

/-- Failure reasons of `validate_audio_file`, one constructor per
distinct early return (lines 37-90). -/
inductive VError where
  | fileMissing
  | zeroBytes
  | tooSmallFile
  | zeroFrames
  | invalidRate
  | tooShort
  | silent
  | tooQuiet
deriving DecidableEq, Repr

/-- Observable state of a WAV file on disk, as read by
`validate_audio_file`: existence, byte size, header frame count and
sample rate, and the decoded float samples. -/
structure WavOnDisk where
  fileExists : Bool
  sizeBytes : ℕ
  nFrames : ℕ
  framerate : ℕ
  samples : List ℚ
deriving DecidableEq

/-- Mean square of the decoded samples, `np.mean(data_float ** 2)`
(the monotone image of the RMS computed at line 81). -/
def meanSq (l : List ℚ) : ℚ :=
  (l.map (fun x => x * x)).sum / (l.length : ℚ)

/-- Model of `validate_audio_file` (lines 18-96).  `none` means valid;
`some r` is the first failing check's reason.  `minDurationSec` is the
`min_duration_sec` parameter (default `2.0`); `minMeanSq` is the
mean-square image of the `min_rms_db` parameter (default `-60.0 dB`,
i.e. `1/1000000`). -/
def validate_audio_file (f : WavOnDisk) (minDurationSec minMeanSq : ℚ) :
    Option VError :=
  if f.fileExists = false then some .fileMissing
  else if f.sizeBytes = 0 then some .zeroBytes
  else if f.sizeBytes < 1000 then some .tooSmallFile
  else if f.nFrames = 0 then some .zeroFrames
  else if f.framerate = 0 then some .invalidRate
  else if (f.nFrames : ℚ) / (f.framerate : ℚ) < minDurationSec then
    some .tooShort
  else if meanSq f.samples = 0 then some .silent
  else if meanSq f.samples < minMeanSq then some .tooQuiet
  else none

/-! ### Mix engine (`stem_mixer.py`, `mix_stems`, lines 259-379)

Stems are loaded from disk (a missing file is skipped with a warning,
line 307-309), padded with silence to the longest stem, scaled by a
per-role gain (the caller's `stem_gains` overriding a default table,
with `0.7` for unknown roles), optionally multiplied by the sidechain
envelope, summed, and peak-normalized down to `0.8` only when the summed
peak exceeds `0.8`.  On success the mix is written with `save_wav` and
`True` is returned; with an empty `stems` dict or no loadable stem the
function returns `False` without writing anything.

Buffers are modelled as `List ℚ` of samples; the two stereo channels
undergo identical sample-wise treatment, so one channel is modelled.
Sample-rate resampling (scipy, floating-point DSP) is not exercised by
the modelled claims: all stems are taken at the common rate.  The
sidechain envelope (computed inside `mix_stems` from the MIDI file or
the kick stem, lines 329-346, modelled above) enters here as an optional
argument. -/

/-- The `default_gains` table of `mix_stems` (lines 287-296) together
with the `default_gains.get(name, 0.7)` fallback (line 357). -/
def defaultGain (name : String) : ℚ :=
  if name = "kick" then 1
  else if name = "snare" then 4/5
  else if name = "hihat" then 1/2
  else if name = "bass" then 9/10
  else if name = "lead" then 7/10
  else if name = "pad" then 2/5
  else if name = "arp" then 3/5
  else if name = "fx" then 3/10
  else 7/10

/-- Gain for a stem after `default_gains.update(stem_gains)`: the
caller's override when present, the default table otherwise. -/
def lookupGain (overrides : List (String × ℚ)) (name : String) : ℚ :=
  match overrides.find? (fun p => p.1 == name) with
  | some p => p.2
  | none => defaultGain name

/-- Padding a stem with silence to the mix length,
`np.pad(audio, ((0, max_length - len(audio)), (0, 0)), 'constant')`
(line 354). -/
def padTo (buf : List ℚ) (n : ℕ) : List ℚ :=
  buf ++ List.replicate (n - buf.length) 0

/-- Fitting the sidechain envelope to the buffer length inside
`apply_sidechain` (lines 247-252): truncate when too long, pad with the
edge (last) value when too short. -/
def fitEnv (env : List ℚ) (n : ℕ) : List ℚ :=
  if n ≤ env.length then env.take n
  else env ++ List.replicate (n - env.length) (env.getLastD 0)

/-- Sample-wise addition of a stem into the running mix (`mixed += audio`,
line 365; both operands have been brought to the same length). -/
def addBuf (a b : List ℚ) : List ℚ :=
  List.zipWith (· + ·) a b

/-- The mixing loop and final normalization of `mix_stems`
(lines 348-370) on the successfully loaded stems: pad each stem to the
longest length, apply its gain, multiply sidechain targets by the fitted
envelope, sum everything, and scale the sum down to peak `0.8` only when
its peak exceeds `0.8`. -/
def mixLoaded (loaded : List (String × List ℚ))
    (overrides : List (String × ℚ)) (targets : List String)
    (envOpt : Option (List ℚ)) : List ℚ :=
  let maxLen := loaded.foldl (fun m p => max m p.2.length) 0
  let mixed := loaded.foldl
    (fun acc p =>
      let audio := padTo p.2 maxLen
      let audio := audio.map (· * lookupGain overrides p.1)
      let audio :=
        match envOpt with
        | some env =>
          if p.1 ∈ targets then List.zipWith (· * ·) audio (fitEnv env maxLen)
          else audio
        | none => audio
      addBuf acc audio)
    (List.replicate maxLen 0)
  if peakAbs mixed > 4/5 then mixed.map (· * ((4/5) / peakAbs mixed))
  else mixed

/-- Model of `mix_stems` (lines 259-379).  Each entry of `stems` is a
stem name with `some buffer` when its WAV file exists and loads, `none`
when the file is missing (`os.path.exists` false, line 307).  The result
is `none` when the function returns `False` (no output file written):
with an empty mapping (line 282) or with no loadable stem (line 325);
otherwise `some` of the mixed buffer that is written with `save_wav`. -/
def mix_stems (stems : List (String × Option (List ℚ)))
    (overrides : List (String × ℚ)) (targets : List String)
    (envOpt : Option (List ℚ)) : Option (List ℚ) :=
  if stems = [] then none
  else
    let loaded := stems.filterMap (fun p => p.2.map (fun b => (p.1, b)))
    if loaded = [] then none
    else some (mixLoaded loaded overrides targets envOpt)

/-! ### Mastering chain (`mastering.py`) and its fallback (`app.py`)

`apply_mastering_chain` (lines 12-108) runs three ffmpeg stages — EQ,
compression, loudness-normalization + limiting — each a blocking
subprocess with `check=True`; any stage failure raises, is caught, and
the function returns `False`.  The DSP itself happens inside ffmpeg
(an external collaborator), so each stage is modelled by its success
bit.  In `produce` (`app.py` lines 359-369), when the chain reports
failure the pre-mastering mixed buffer `temp_mixed` is handed to
`apply_simple_limiter`; the limiter's own return value is ignored, so
nothing further is attempted. -/

/-- Success bits of the three ffmpeg mastering stages. -/
structure MasterStages where
  eqOk : Bool
  compOk : Bool
  loudnormOk : Bool
deriving DecidableEq, Repr

/-- Model of `apply_mastering_chain` (lines 12-108): `True` only when the
EQ, compression and loudness-normalization/limiting stages all succeed;
the first raising stage aborts the chain with `False`. -/
def apply_mastering_chain (s : MasterStages) : Bool :=
  s.eqOk && s.compOk && s.loudnormOk

/-- Source buffer an ffmpeg invocation in the mastering step reads.
Both the full chain and the fallback limiter read `temp_mixed`, the
pre-mastering mixed buffer. -/
inductive MasterSource where
  | premix
deriving DecidableEq, Repr

/-- One ffmpeg-backed operation attempted by the mastering step of
`produce`. -/
inductive MasterAction where
  | fullChain (src : MasterSource)
  | simpleLimiter (src : MasterSource)
deriving DecidableEq, Repr

/-- The ordered list of operations the mastering step of `produce`
attempts (`app.py` lines 359-369).  With mastering enabled, the full
chain is tried on the pre-mastering buffer; only if it fails is
`apply_simple_limiter(temp_mixed, output_path)` run, and its success bit
`limiterOk` is ignored — no further operation follows it. -/
def produce_master_actions (applyMastering : Bool) (s : MasterStages)
    (_limiterOk : Bool) : List MasterAction :=
  if applyMastering then
    if apply_mastering_chain s then [.fullChain .premix]
    else [.fullChain .premix, .simpleLimiter .premix]
  else [.simpleLimiter .premix]

/-! ### Temporary per-stem files in `/produce` (`app.py`)

Every temporary stem WAV is named with `os.getpid()`
(lines 214, 244, 255, 268), and the names recorded in `temp_stems` are
removed only at lines 396-399, after mixing and mastering have both been
passed; the early error returns (`'No stems rendered'`, line 263, and
`'Mixing failed'`, line 327) leave the files in place. -/

/-- Temporary stem file name, `f"{stem_name}_{os.getpid()}.wav"`
(line 244; the drums/full/fx names follow the same pattern).  The token
is the operating-system process id — the same for every request served
by one process. -/
def temp_stem_name (stem : String) (pid : ℕ) : String :=
  stem ++ "_" ++ toString pid ++ ".wav"

/-- Exit paths of `produce` that are relevant to temp-file cleanup. -/
inductive ProduceExit where
  | errNoStems
  | errMixing
  | completed
deriving DecidableEq, Repr

/-- Which exit path `produce` takes as a function of whether any stem
rendered (line 262) and whether mixing succeeded (line 326). -/
def produce_exit (stemsRendered mixOk : Bool) : ProduceExit :=
  if stemsRendered = false then .errNoStems
  else if mixOk = false then .errMixing
  else .completed

/-- Whether the temp-file cleanup block (lines 396-402) runs on a given
path through `produce`: only after both stem rendering and mixing
succeed. -/
def produce_cleanup_runs (stemsRendered mixOk : Bool) : Bool :=
  stemsRendered && mixOk

/-! ### Sample-based drum renderer (`drum_sampler.py`)

`DrumSampler.get_sample` (lines 99-141) maps a MIDI note to a category,
draws a sample from that category's pool (returning `None` when the note
has no category or the pool is empty), resamples it to the session rate,
and scales it by `velocity / 127`.  `DrumSampler.render_midi`
(lines 168-252) places each drawn sample additively at
`int(time * samplerate)` into a zero buffer and finally scales the
buffer down to peak `0.95` only when its peak exceeds `0.95`.

Pools hold `(samples, native_rate)` pairs.  The band-limited resampler
(`scipy.signal.resample`, floating-point FFT DSP) is carried as an
abstract function field; none of the modelled properties depend on it.
The `'random'` selection policy (`random.choice`) is nondeterministic
and is not modelled; `render_midi` always uses the default
`'round-robin'` policy. -/

/-- Deterministic sample-selection policies of `get_sample`. -/
inductive SelectMethod where
  | roundRobin
  | velocityMapped
deriving DecidableEq, Repr

/-- State of a `DrumSampler` instance. -/
structure DrumSampler where
  samplerate : ℕ
  midiToCategory : ℕ → Option String
  samplePools : String → List (List ℚ × ℕ)
  roundRobinIdx : String → ℕ
  resample : List ℚ → ℕ → ℕ → List ℚ

/-- A note-on event on the drum channel, as collected by `render_midi`
(lines 203-213): time in seconds, MIDI note number, velocity. -/
structure NoteEvent where
  time : ℚ
  note : ℕ
  velocity : ℕ

/-- Model of `DrumSampler.get_sample` (lines 99-141).  Returns the drawn,
resampled, velocity-scaled sample together with the updated sampler state
(only the round-robin cursor ever changes).  A note without a category
mapping, or whose category has an empty pool, yields `none` with the
state untouched. -/
def get_sample (st : DrumSampler) (midiNote velocity : ℕ)
    (method : SelectMethod) : Option (List ℚ) × DrumSampler :=
  match st.midiToCategory midiNote with
  | none => (none, st)
  | some cat =>
    let pool := st.samplePools cat
    if pool.length = 0 then (none, st)
    else
      let drawn :=
        match method with
        | .velocityMapped =>
          (pool.getD (pyIntNat (((velocity : ℚ) / 127) * ((pool.length : ℚ) - 1)))
            ([], 0), st)
        | .roundRobin =>
          let idx := st.roundRobinIdx cat
          (pool.getD idx ([], 0),
           { st with roundRobinIdx :=
               fun c => if c = cat then (idx + 1) % pool.length
                        else st.roundRobinIdx c })
      let audio := (drawn.1).1
      let originalSr := (drawn.1).2
      let audio :=
        if originalSr ≠ st.samplerate then st.resample audio originalSr st.samplerate
        else audio
      (some (audio.map (· * ((velocity : ℚ) / 127))), drawn.2)

/-- Additive placement of one drawn sample into the output buffer
(lines 231-238): the slice `[pos, min(pos + len, num))` receives the
sample, everything else is untouched. -/
def placeSample (out : ℕ → ℚ) (pos : ℕ) (sample : List ℚ) (num : ℕ) :
    ℕ → ℚ :=
  fun i =>
    if pos ≤ i ∧ i < pos + sample.length ∧ i < num then
      out i + sample.getD (i - pos) 0
    else out i

/-- Contribution of one placed sample at buffer index `i` (zero outside
the placed slice). -/
def sampleContrib (num pos : ℕ) (sample : List ℚ) (i : ℕ) : ℚ :=
  if pos ≤ i ∧ i < pos + sample.length ∧ i < num then
    sample.getD (i - pos) 0
  else 0

/-- The event-rendering loop of `render_midi` (lines 227-238): fold the
note events through `get_sample` (round-robin, the default), placing
every drawn sample at `int(time * samplerate)` and threading the sampler
state; events whose draw returns `None` contribute nothing. -/
def render_events (st : DrumSampler) (events : List NoteEvent)
    (num : ℕ) (out : ℕ → ℚ) : (ℕ → ℚ) × DrumSampler :=
  events.foldl
    (fun acc ev =>
      match get_sample acc.2 ev.note ev.velocity .roundRobin with
      | (none, st') => (acc.1, st')
      | (some sample, st') =>
        (placeSample acc.1 (pyIntNat (ev.time * st'.samplerate)) sample num,
         st'))
    (out, st)

/-- The `(pos, sample)` pairs actually placed by `render_events`, in
order (dropped events contribute no pair). -/
def placedSamples (st : DrumSampler) (events : List NoteEvent) :
    List (ℕ × List ℚ) :=
  (events.foldl
    (fun (acc : List (ℕ × List ℚ) × DrumSampler) ev =>
      match get_sample acc.2 ev.note ev.velocity .roundRobin with
      | (none, st') => (acc.1, st')
      | (some sample, st') =>
        (acc.1 ++ [(pyIntNat (ev.time * st'.samplerate), sample)], st'))
    ([], st)).1

/-- Output duration when the caller passes none (lines 216-220):
two seconds past the last note event, or ten seconds with no events. -/
def autoDuration (events : List NoteEvent) : ℚ :=
  match events with
  | [] => 10
  | e :: rest => (rest.foldl (fun m ev => max m ev.time) e.time) + 2

/-- Model of `DrumSampler.render_midi` (lines 168-252) from the parsed
note events: render all events into a zero buffer of
`int(duration * samplerate)` samples, then scale the buffer so its peak
becomes `0.95` only when the peak exceeds `0.95` (lines 240-243). -/
def render_midi (st : DrumSampler) (events : List NoteEvent)
    (durationSeconds : ℚ) : ℕ → ℚ :=
  let num := pyIntNat (durationSeconds * st.samplerate)
  let raw := (render_events st events num (fun _ => 0)).1
  if bufPeak raw num > 19/20 then
    fun i => raw i * ((19/20) / bufPeak raw num)
  else raw

/-! ### Fallback audio synthesizer
(`audio_validation.py`, `create_fallback_audio`, lines 161-218)

With the default parameters (`duration_sec = 30.0`,
`sample_rate = 44100`) the buffer has `int(30 * 44100) = 1323000`
samples; the kick waveform has `int(0.2 * 44100) = 8820` samples over
`t = linspace(0, 0.2, 8820)` (so `t_j = 0.2 * j / 8819`) with value
`sin(2π·60·t) * exp(-15 t)`; the `while current_time < 30` loop with
step `60/120 = 0.5` places the kick at start samples
`int(k * 0.5 * 44100) = 22050 * k` for `k = 0, …, 59` (all these
products are exact in floating point); the last kick ends at sample
`1309770 < 1323000`, so the `min(..., total_samples)` clamp never bites.
The buffer is then scaled to peak `0.8` (the peak is provably positive)
and duplicated to two identical stereo channels.  The synthesis uses no
randomness and no external state, so for fixed parameters the model —
like the code — is a single fixed buffer.  Sample values are modelled
exactly in `ℝ` because of `sin` and `exp`. -/

/-- The kick waveform `sin(2π·60·t_j) * exp(-15·t_j)` at index `j`,
`t_j = 0.2·j/8819` (lines 186-191). -/
noncomputable def fallback_kick (j : ℕ) : ℝ :=
  Real.sin (2 * Real.pi * 60 * ((1/5 : ℝ) * j / 8819)) *
    Real.exp (-((1/5 : ℝ) * j / 8819 * 15))

/-- The un-normalized mono fallback buffer (lines 179-203): the sum of
the kick waveform placed at start samples `22050 * k`, `k < 60`. -/
noncomputable def fallback_raw (i : ℕ) : ℝ :=
  ∑ k ∈ Finset.range 60,
    if 22050 * k ≤ i ∧ i < 22050 * k + 8820 then
      fallback_kick (i - 22050 * k)
    else 0

/-- Peak of the un-normalized fallback buffer over its 1323000 samples
(`np.abs(audio).max()`, line 206). -/
noncomputable def fallback_peak_raw : ℝ :=
  bufPeak fallback_raw 1323000

/-- The normalized mono fallback buffer (lines 206-208): scaled to peak
`0.8` when the raw peak is positive. -/
noncomputable def fallback_mono (i : ℕ) : ℝ :=
  if 0 < fallback_peak_raw then fallback_raw i * ((4/5) / fallback_peak_raw)
  else fallback_raw i

/-- Model of `create_fallback_audio` with default parameters
(lines 161-218): the stereo pair produced by duplicating the normalized
mono buffer (`np.stack([audio, audio], axis=-1)`, line 211). -/
noncomputable def create_fallback_audio : (ℕ → ℝ) × (ℕ → ℝ) :=
  (fallback_mono, fallback_mono)

/-- Total sample count of the default fallback buffer,
`int(30.0 * 44100)`. -/
def fallback_total_samples : ℕ :=
  pyIntNat (30 * 44100)

/-! ## Helper lemmas -/

/-- Truncation toward zero moves a rational by less than one. -/
theorem abs_truncQ_sub_le (q : ℚ) : |(truncQ q : ℚ) - q| ≤ 1 := by
  unfold truncQ
  split
  · have h1 : ((⌊q⌋ : ℤ) : ℚ) ≤ q := Int.floor_le q
    have h2 : q - 1 < ((⌊q⌋ : ℤ) : ℚ) := Int.sub_one_lt_floor q
    rw [abs_le]
    constructor <;> linarith
  · have h1 : q ≤ ((⌈q⌉ : ℤ) : ℚ) := Int.le_ceil q
    have h2 : ((⌈q⌉ : ℤ) : ℚ) < q + 1 := Int.ceil_lt_add_one q
    rw [abs_le]
    constructor <;> linarith

theorem foldl_max_abs_init {α : Type} [LinearOrderedField α]
    (l : List α) (a : α) : a ≤ l.foldl (fun m x => max m |x|) a := by
  induction l generalizing a with
  | nil => exact le_refl a
  | cons x t ih => exact le_trans (le_max_left a |x|) (ih (max a |x|))

theorem foldl_max_abs_mem {α : Type} [LinearOrderedField α] :
    ∀ (l : List α) (a x : α), x ∈ l →
      |x| ≤ l.foldl (fun m y => max m |y|) a
  | [], _, x, hx => absurd hx (List.not_mem_nil x)
  | y :: t, a, x, hx => by
    simp only [List.foldl_cons]
    rcases List.mem_cons.mp hx with h | h
    · subst h
      exact le_trans (le_max_right a |x|) (foldl_max_abs_init t (max a |x|))
    · exact foldl_max_abs_mem t (max a |y|) x h

theorem foldl_max_abs_scale {α : Type} [LinearOrderedField α]
    (c : α) (hc : 0 ≤ c) (l : List α) (a : α) :
    (l.map (· * c)).foldl (fun m x => max m |x|) (a * c) =
      (l.foldl (fun m x => max m |x|) a) * c := by
  induction l generalizing a with
  | nil => rfl
  | cons x t ih =>
    simp only [List.map_cons, List.foldl_cons]
    rw [abs_mul, abs_of_nonneg hc, ← max_mul_of_nonneg a |x| hc, ih]

/-- Peaks are nonnegative. -/
theorem peakAbs_nonneg {α : Type} [LinearOrderedField α] (l : List α) :
    0 ≤ peakAbs l :=
  foldl_max_abs_init l 0

/-- Every sample is dominated by the peak. -/
theorem abs_mem_le_peakAbs {α : Type} [LinearOrderedField α]
    (l : List α) (x : α) (hx : x ∈ l) : |x| ≤ peakAbs l :=
  foldl_max_abs_mem l 0 x hx

/-- Scaling a buffer by a nonnegative factor scales its peak. -/
theorem peakAbs_map_mul {α : Type} [LinearOrderedField α]
    (l : List α) (c : α) (hc : 0 ≤ c) :
    peakAbs (l.map (· * c)) = peakAbs l * c := by
  have h := foldl_max_abs_scale c hc l 0
  rw [zero_mul] at h
  exact h

/-- Scaling a function buffer by a nonnegative factor scales its peak. -/
theorem bufPeak_mul {α : Type} [LinearOrderedField α]
    (f : ℕ → α) (n : ℕ) (c : α) (hc : 0 ≤ c) :
    bufPeak (fun i => f i * c) n = bufPeak f n * c := by
  unfold bufPeak
  rw [← peakAbs_map_mul ((List.range n).map f) c hc, List.map_map]
  rfl

/-- Summing into an all-zero accumulator returns the buffer. -/
theorem addBuf_zero (l : List ℚ) :
    addBuf (List.replicate l.length 0) l = l := by
  induction l with
  | nil => rfl
  | cons x t ih =>
    simp only [List.length_cons, List.replicate_succ, addBuf,
      List.zipWith_cons_cons, zero_add]
    exact congrArg (x :: ·) ih

/-- Mixing a single stem: `mixLoaded` reproduces the loaded buffer,
normalized down to peak `0.8` only when its peak exceeds `0.8`. -/
theorem mixLoaded_single (name : String) (buf : List ℚ)
    (targets : List String) (envOpt : Option (List ℚ))
    (h : name ∉ targets) :
    mixLoaded [(name, buf)] [(name, 1)] targets envOpt =
      if peakAbs buf > 4/5 then buf.map (· * ((4/5) / peakAbs buf))
      else buf := by
  have hgain : lookupGain [(name, 1)] name = 1 := by
    simp [lookupGain, List.find?]
  have hpad : padTo buf (max 0 buf.length) = buf := by
    unfold padTo
    rw [Nat.zero_max, Nat.sub_self, List.replicate_zero, List.append_nil]
  have hmap : buf.map (· * (1:ℚ)) = buf := by
    simp
  have henv :
      (match envOpt with
       | some env =>
         if name ∈ targets then
           List.zipWith (· * ·) buf (fitEnv env (max 0 buf.length))
         else buf
       | none => buf) = buf := by
    cases envOpt with
    | none => rfl
    | some env => exact if_neg h
  have hadd : addBuf (List.replicate (max 0 buf.length) (0:ℚ)) buf = buf := by
    rw [Nat.zero_max]
    exact addBuf_zero buf
  unfold mixLoaded
  simp only [List.foldl_cons, List.foldl_nil, hgain, hpad, hmap, henv, hadd]

/-! ## Claim C2 -/

/-- C2 counterexample: for the (float32-representable) sample value
`65535/65536`, the save/load round trip moves the clipped sample by
`3/65536`, which exceeds one quantization step `1/32768 = 2/65536` —
refuting the claimed one-step bound. -/
theorem save_load_one_step_violated :
    1/32768 < |save_load_sample (65535/65536) - clip (65535/65536)| := by
  have h1 : clip (65535/65536 : ℚ) = 65535/65536 := by
    unfold clip
    norm_num
  have h2 : truncQ ((65535/65536 : ℚ) * 32767) = 32766 := by
    unfold truncQ
    rw [if_pos (by norm_num)]
    norm_num
  unfold save_load_sample load_wav_sample save_wav_sample
  rw [h1, h2]
  rw [show ((32766 : ℤ) : ℚ) / 32768 - 65535/65536 = -(3/65536) by norm_num]
  rw [abs_neg, abs_of_pos (by norm_num : (0:ℚ) < 3/65536)]
  norm_num

/-- C2 (amended): `save_wav` clips to `[-1,1]` before quantizing, and the
save/load round trip preserves the buffer length and moves each clipped
sample by at most **two** quantization steps (`2/32768`); the one-step
bound of the original claim fails (see the counterexample). -/
theorem save_load_roundtrip_spec :
    (∀ x : ℚ, -1 ≤ clip x ∧ clip x ≤ 1 ∧
      |save_load_sample x - clip x| ≤ 2/32768) ∧
    (∀ l : List ℚ, (save_load_buffer l).length = l.length) := by
  constructor
  · intro x
    have hlo : -1 ≤ clip x := le_min (le_max_right x (-1)) (by norm_num)
    have hhi : clip x ≤ 1 := min_le_right _ 1
    refine ⟨hlo, hhi, ?_⟩
    have htr : |(truncQ (clip x * 32767) : ℚ) - clip x * 32767| ≤ 1 :=
      abs_truncQ_sub_le (clip x * 32767)
    have hc : |clip x| ≤ 1 := abs_le.mpr ⟨hlo, hhi⟩
    have hrw : save_load_sample x - clip x =
        (((truncQ (clip x * 32767) : ℚ) - clip x * 32767) - clip x) / 32768 := by
      unfold save_load_sample load_wav_sample save_wav_sample
      ring
    rw [hrw, abs_div, abs_of_nonneg (by norm_num : (0:ℚ) ≤ 32768)]
    have h2 : |((truncQ (clip x * 32767) : ℚ) - clip x * 32767) - clip x| ≤ 2 :=
      le_trans (abs_sub _ _) (by linarith)
    linarith
  · intro l
    exact List.length_map l save_load_sample

/-! ## Claim C10 -/

/-- C10: genre → preset resolution never fails: a genre string missing
from `genre_map` resolves to the default `'house'` preset name, every
genre resolves to one of the three existing preset names, the EDM Drop
genres share the `'house'` preset with `'HOUSE'`, and the EDM Chill
genres share the `'rnb'` preset with `'RNB'`. -/
theorem get_preset_for_genre_spec :
    (∀ g : String, genre_map.find? (fun p => p.1 == g) = none →
       get_preset_name g = "house") ∧
    (∀ g : String, get_preset_name g = "rap" ∨ get_preset_name g = "house" ∨
       get_preset_name g = "rnb") ∧
    get_preset_name "EDM Drop" = get_preset_name "HOUSE" ∧
    get_preset_name "EDM_DROP" = get_preset_name "HOUSE" ∧
    get_preset_name "EDM Chill" = get_preset_name "RNB" ∧
    get_preset_name "EDM_CHILL" = get_preset_name "RNB" ∧
    get_preset_name "HOUSE" = "house" ∧
    get_preset_name "RNB" = "rnb" := by
  refine ⟨?_, ?_, rfl, rfl, rfl, rfl, rfl, rfl⟩
  · intro g h
    simp [get_preset_name, h]
  · intro g
    unfold get_preset_name
    cases hf : genre_map.find? (fun p => p.1 == g) with
    | none => simp
    | some p =>
      have hp : p ∈ genre_map := List.mem_of_find?_eq_some hf
      fin_cases hp <;> simp

/-- Witness for C10 at the unrecognized genre string `"jazz"`. -/
theorem get_preset_for_genre_spec_witness :
    genre_map.find? (fun p => p.1 == "jazz") = none ∧
    get_preset_name "jazz" = "house" :=
  ⟨by decide, get_preset_for_genre_spec.1 "jazz" (by decide)⟩

/-! ## Claim C4 -/

/-- C4: if any of the three mastering stages fails,
`apply_mastering_chain` reports failure and `produce` runs exactly one
fallback — the simple peak limiter, applied directly to the
pre-mastering mixed buffer — regardless of the limiter's own outcome
(no second fallback); when all stages succeed only the full chain
runs. -/
theorem mastering_fallback_spec :
    (∀ s : MasterStages, ∀ lok : Bool,
      (s.eqOk = false ∨ s.compOk = false ∨ s.loudnormOk = false) →
        apply_mastering_chain s = false ∧
        produce_master_actions true s lok =
          [.fullChain .premix, .simpleLimiter .premix]) ∧
    (∀ s : MasterStages, ∀ lok : Bool, apply_mastering_chain s = true →
      produce_master_actions true s lok = [.fullChain .premix]) := by
  constructor
  · rintro ⟨eq1, c1, l1⟩ lok h
    rcases h with h | h | h <;> subst h <;>
      simp [apply_mastering_chain, produce_master_actions]
  · intro s lok h
    simp [produce_master_actions, h]

/-- Witness for C4: a failing EQ stage forces the single
simple-limiter fallback (even when the limiter itself would fail). -/
theorem mastering_fallback_spec_witness :
    (MasterStages.mk false true true).eqOk = false ∧
    apply_mastering_chain ⟨false, true, true⟩ = false ∧
    produce_master_actions true ⟨false, true, true⟩ false =
      [.fullChain .premix, .simpleLimiter .premix] :=
  ⟨rfl, mastering_fallback_spec.1 ⟨false, true, true⟩ false (Or.inl rfl)⟩

/-! ## Claim C9 -/

/-- C9 counterexample: on the mixing-failure path (stems rendered, mix
fails) `produce` exits with the mixing error *without* running the
temp-file cleanup block — temporary per-stem files are not deleted on
this error path, refuting "deleted on every exit path". -/
theorem produce_tempfile_cleanup_counterexample :
    produce_exit true false = .errMixing ∧
    produce_cleanup_runs true false = false :=
  ⟨rfl, rfl⟩

/-- C9 (amended): temporary per-stem WAV names carry the operating-system
process id — a token shared by every request served by the same process,
not a request-scoped unique token — and the cleanup block runs only when
both stem rendering and mixing succeed: the no-stems and mixing-failure
error exits leave the temp files in place. -/
theorem produce_tempfile_spec :
    (∀ stem : String, ∀ pid : ℕ,
       temp_stem_name stem pid = stem ++ "_" ++ toString pid ++ ".wav") ∧
    (∀ r m : Bool, produce_cleanup_runs r m = (r && m)) ∧
    (∀ m : Bool, produce_exit false m = .errNoStems) ∧
    produce_exit true false = .errMixing ∧
    produce_exit true true = .completed := by
  exact ⟨fun _ _ => rfl, fun _ _ => rfl, fun _ => rfl, rfl, rfl⟩

/-! ## Claim C3 -/

/-- C3: with the default thresholds, `validate_audio_file` rejects a
1.9 s file (83790 frames at 44100 Hz) and accepts a 2.0 s file; a file
whose RMS sits exactly at the -60.0 dB amplitude `1/1000` is accepted,
while any quieter file (mean square below `10^-6`, which covers every
file at -60.1 dB RMS) is rejected with the quietness reason; the checks
run in the stated order and the first failing check short-circuits with
its specific reason (an absent file reports `fileMissing`, a present
zero-byte file reports `zeroBytes`, whatever the later fields hold). -/
theorem validate_audio_spec :
    (∀ (f : WavOnDisk) (dmin msq : ℚ), f.fileExists = false →
       validate_audio_file f dmin msq = some .fileMissing) ∧
    (∀ (f : WavOnDisk) (dmin msq : ℚ), f.fileExists = true →
       f.sizeBytes = 0 → validate_audio_file f dmin msq = some .zeroBytes) ∧
    validate_audio_file ⟨true, 1000000, 83790, 44100, []⟩ 2 (1/1000000) =
      some .tooShort ∧
    validate_audio_file
      ⟨true, 1000000, 88200, 44100, [1/1000, 1/1000]⟩ 2 (1/1000000) = none ∧
    validate_audio_file
      ⟨true, 1000000, 88200, 44100, [49/50000, 49/50000]⟩ 2 (1/1000000) =
      some .tooQuiet ∧
    (∀ f : WavOnDisk, f.fileExists = true → 1000 ≤ f.sizeBytes →
       f.nFrames ≠ 0 → f.framerate ≠ 0 →
       ¬((f.nFrames : ℚ) / (f.framerate : ℚ) < 2) → meanSq f.samples ≠ 0 →
       (validate_audio_file f 2 (1/1000000) = none ↔
         1/1000000 ≤ meanSq f.samples)) := by
  refine ⟨?_, ?_, ?_, ?_, ?_, ?_⟩
  · intro f dmin msq h
    simp [validate_audio_file, h]
  · intro f dmin msq h1 h2
    simp [validate_audio_file, h1, h2]
  · norm_num [validate_audio_file]
  · norm_num [validate_audio_file, meanSq]
  · norm_num [validate_audio_file, meanSq]
  · intro f h1 h2 h3 h4 h5 h6
    have hs0 : ¬(f.sizeBytes = 0) := by omega
    have hs1 : ¬(f.sizeBytes < 1000) := by omega
    unfold validate_audio_file
    rw [if_neg (by simp [h1]), if_neg hs0, if_neg hs1, if_neg h3,
        if_neg h4, if_neg h5, if_neg h6]
    by_cases hq : meanSq f.samples < 1/1000000
    · rw [if_pos hq]
      constructor
      · intro hcontra
        exact absurd hcontra (Option.some_ne_none _)
      · intro hle
        exact absurd hq (not_lt.mpr hle)
    · rw [if_neg hq]
      exact ⟨fun _ => le_of_not_lt hq, fun _ => rfl⟩

/-- Witness for C3: the short-circuit conjunct applied to a concrete
absent file, and the RMS-boundary conjunct applied to the concrete
2-second file sitting exactly at -60.0 dB RMS. -/
theorem validate_audio_spec_witness :
    (WavOnDisk.mk false 0 0 0 []).fileExists = false ∧
    validate_audio_file ⟨false, 0, 0, 0, []⟩ 2 (1/1000000) =
      some .fileMissing ∧
    (validate_audio_file
        ⟨true, 1000000, 88200, 44100, [1/1000, 1/1000]⟩ 2 (1/1000000) = none ↔
      1/1000000 ≤ meanSq [(1:ℚ)/1000, 1/1000]) :=
  ⟨rfl, validate_audio_spec.1 ⟨false, 0, 0, 0, []⟩ 2 (1/1000000) rfl,
   validate_audio_spec.2.2.2.2.2 ⟨true, 1000000, 88200, 44100, [1/1000, 1/1000]⟩
     rfl (by norm_num) (by norm_num) (by norm_num) (by norm_num)
     (by norm_num [meanSq])⟩

/-! ## Claim C5 -/

/-- C5 counterexample: a stems mapping in which the `bass` file is
missing but the `kick` file loads does *not* abort — `mix_stems` skips
the missing stem and succeeds, refuting "aborts whenever a required stem
file is missing". -/
theorem mix_stems_missing_file_counterexample :
    mix_stems [("kick", some [1/2]), ("bass", none)] [] [] none =
      some [1/2] := by
  have h : mixLoaded [("kick", [1/2])] [] [] none = [1/2] := by
    have hpeak : peakAbs [(1:ℚ)/2] = 1/2 := by
      unfold peakAbs
      simp [abs_of_pos]
    unfold mixLoaded
    simp only [List.foldl_cons, List.foldl_nil]
    norm_num [padTo, addBuf, lookupGain, defaultGain, fitEnv, List.find?]
    rw [hpeak]
    norm_num
  have hfm : List.filterMap
      (fun (p : String × Option (List ℚ)) => p.2.map (fun b => (p.1, b)))
      [("kick", some [1/2]), ("bass", none)] = [("kick", [1/2])] := rfl
  unfold mix_stems
  rw [if_neg (List.cons_ne_nil _ _)]
  simp only [hfm, h]
  rfl

/-- C5 (amended): `mix_stems` aborts with a mixing error (returning
failure, writing no output) when the stems mapping is empty and when no
stem file could be loaded; a missing individual stem file, however, is
skipped with a warning and does not abort — whenever at least one stem
loads, the mix succeeds. -/
theorem mix_stems_abort_spec :
    (∀ (overrides : List (String × ℚ)) (targets : List String)
       (envOpt : Option (List ℚ)),
       mix_stems [] overrides targets envOpt = none) ∧
    (∀ (stems : List (String × Option (List ℚ)))
       (overrides : List (String × ℚ)) (targets : List String)
       (envOpt : Option (List ℚ)),
       (∀ p ∈ stems, p.2 = none) →
       mix_stems stems overrides targets envOpt = none) ∧
    (∀ (stems : List (String × Option (List ℚ)))
       (overrides : List (String × ℚ)) (targets : List String)
       (envOpt : Option (List ℚ)) (p : String × Option (List ℚ)),
       p ∈ stems → p.2 ≠ none →
       mix_stems stems overrides targets envOpt ≠ none) := by
  refine ⟨?_, ?_, ?_⟩
  · intro o t e
    rfl
  · intro stems o t e h
    by_cases hs : stems = []
    · rw [hs]
      rfl
    · have hfm : stems.filterMap (fun p => p.2.map (fun b => (p.1, b))) = [] := by
        rw [List.filterMap_eq_nil_iff]
        intro p hp
        rw [h p hp]
        rfl
      simp only [mix_stems, if_neg hs, hfm]
      rfl
  · intro stems o t e p hp hne
    have hs : stems ≠ [] := List.ne_nil_of_mem hp
    obtain ⟨b, hb⟩ := Option.ne_none_iff_exists'.mp hne
    have hmem : (p.1, b) ∈
        stems.filterMap (fun q => q.2.map (fun c => (q.1, c))) := by
      refine List.mem_filterMap.mpr ⟨p, hp, ?_⟩
      rw [hb]
      rfl
    have hl := List.ne_nil_of_mem hmem
    simp only [mix_stems, if_neg hs, if_neg hl]
    exact Option.some_ne_none _

/-- Witness for C5: the all-missing conjunct applied to a concrete
one-entry mapping whose only file is missing, and the success conjunct
applied to a concrete mapping containing one loadable stem. -/
theorem mix_stems_abort_spec_witness :
    (∀ p ∈ [("kick", (none : Option (List ℚ)))], p.2 = none) ∧
    mix_stems [("kick", (none : Option (List ℚ)))] [] [] none = none ∧
    (("kick", some [(1:ℚ)/2]) ∈ [("kick", some [(1:ℚ)/2])] ∧
     (("kick", some [(1:ℚ)/2]) : String × Option (List ℚ)).2 ≠ none ∧
     mix_stems [("kick", some [(1:ℚ)/2])] [] [] none ≠ none) :=
  ⟨by simp,
   mix_stems_abort_spec.2.1 [("kick", none)] [] [] none (by simp),
   List.mem_singleton.mpr rfl, by simp,
   mix_stems_abort_spec.2.2 [("kick", some [(1:ℚ)/2])] [] [] none
     ("kick", some [(1:ℚ)/2]) (List.mem_singleton.mpr rfl) (by simp)⟩

/-! ## Claim C6 -/

/-- C6: mixing a single stem through `mix_stems` with a gain override of
`1.0` and no sidechain target reproduces that stem's buffer in the
output; the mix is rescaled only when its peak exceeds `0.8`, in which
case it is scaled down so the peak becomes exactly `0.8` — the peak of
the output equals `min(peak, 0.8)`, so the mix is never scaled up. -/
theorem mix_single_stem_spec (name : String) (buf : List ℚ)
    (targets : List String) (envOpt : Option (List ℚ))
    (h : name ∉ targets) :
    mix_stems [(name, some buf)] [(name, 1)] targets envOpt =
      some (if peakAbs buf > 4/5 then buf.map (· * ((4/5) / peakAbs buf))
            else buf) ∧
    peakAbs ((mix_stems [(name, some buf)] [(name, 1)] targets envOpt).getD []) =
      min (peakAbs buf) (4/5) := by
  have hrun : mix_stems [(name, some buf)] [(name, 1)] targets envOpt =
      some (mixLoaded [(name, buf)] [(name, 1)] targets envOpt) := by
    simp [mix_stems, List.filterMap]
  have hcore := mixLoaded_single name buf targets envOpt h
  constructor
  · rw [hrun, hcore]
  · rw [hrun, hcore]
    by_cases h45 : peakAbs buf > 4/5
    · rw [if_pos h45]
      have hc : (0:ℚ) ≤ (4/5) / peakAbs buf :=
        div_nonneg (by norm_num) (peakAbs_nonneg buf)
      have hne : peakAbs buf ≠ 0 :=
        ne_of_gt (lt_trans (by norm_num) h45)
      simp only [Option.getD_some]
      rw [peakAbs_map_mul buf _ hc, min_eq_right (le_of_lt h45), mul_comm,
        div_mul_cancel₀ _ hne]
    · rw [if_neg h45]
      simp only [Option.getD_some]
      exact (min_eq_left (not_lt.mp h45)).symm

/-- Witness for C6 at the concrete stem `kick ↦ [1/2]` with no
sidechain targets. -/
theorem mix_single_stem_spec_witness :
    ("kick" ∉ ([] : List String)) ∧
    mix_stems [("kick", some [(1:ℚ)/2])] [("kick", 1)] [] none =
      some (if peakAbs [(1:ℚ)/2] > 4/5 then
              [(1:ℚ)/2].map (· * ((4/5) / peakAbs [(1:ℚ)/2]))
            else [(1:ℚ)/2]) ∧
    peakAbs ((mix_stems [("kick", some [(1:ℚ)/2])] [("kick", 1)] [] none).getD []) =
      min (peakAbs [(1:ℚ)/2]) (4/5) :=
  ⟨List.not_mem_nil "kick",
   (mix_single_stem_spec "kick" [(1:ℚ)/2] [] none (List.not_mem_nil "kick")).1,
   (mix_single_stem_spec "kick" [(1:ℚ)/2] [] none (List.not_mem_nil "kick")).2⟩

/-! ## Claim C1 -/

/-- Each phase of the duck curve stays in `[0, 1]` when the sidechain
amount does. -/
theorem duckValue_bounds {amount : ℚ} (h0 : 0 ≤ amount) (h1 : amount ≤ 1)
    {A H R off : ℕ} (hoff : off < A + H + R) :
    0 ≤ duckValue amount A H R off ∧ duckValue amount A H R off ≤ 1 := by
  unfold duckValue
  by_cases ha : off < A
  · rw [if_pos ha]
    have hA0 : (0:ℚ) < (A:ℚ) := by
      have : 0 < A := by omega
      exact_mod_cast this
    have hq1 : (0:ℚ) ≤ (off:ℚ) / (A:ℚ) :=
      div_nonneg (Nat.cast_nonneg off) (le_of_lt hA0)
    have hq2 : (off:ℚ) / (A:ℚ) ≤ 1 := by
      rw [div_le_one hA0]
      exact_mod_cast le_of_lt ha
    have h3 : 0 ≤ ((off:ℚ) / (A:ℚ)) * amount := mul_nonneg hq1 h0
    have h4 : ((off:ℚ) / (A:ℚ)) * amount ≤ 1 := mul_le_one₀ hq2 h0 h1
    constructor <;> linarith
  · rw [if_neg ha]
    by_cases hh : off < A + H
    · rw [if_pos hh]
      constructor <;> linarith
    · rw [if_neg hh]
      have hR0 : (0:ℚ) < (R:ℚ) := by
        have : 0 < R := by omega
        exact_mod_cast this
      have hle : ((off - (A + H) : ℕ) : ℚ) ≤ (R:ℚ) := by
        have : off - (A + H) ≤ R := by omega
        exact_mod_cast this
      have hq1 : (0:ℚ) ≤ ((off - (A + H) : ℕ) : ℚ) / (R:ℚ) :=
        div_nonneg (Nat.cast_nonneg _) (le_of_lt hR0)
      have hq2 : ((off - (A + H) : ℕ) : ℚ) / (R:ℚ) ≤ 1 := by
        rw [div_le_one hR0]
        exact hle
      have h3 : 0 ≤ amount * (1 - ((off - (A + H) : ℕ) : ℚ) / (R:ℚ)) :=
        mul_nonneg h0 (by linarith)
      have h4 : amount * (1 - ((off - (A + H) : ℕ) : ℚ) / (R:ℚ)) ≤ 1 :=
        mul_le_one₀ h1 (by linarith) (by linarith)
      constructor <;> linarith

/-- Applying one kick keeps the envelope inside `[0, 1]`. -/
theorem applyKick_bounds {amount : ℚ} (h0 : 0 ≤ amount) (h1 : amount ≤ 1)
    (total A H R : ℕ) (env : ℕ → ℚ)
    (henv : ∀ s, 0 ≤ env s ∧ env s ≤ 1) (start : ℕ) :
    ∀ s, 0 ≤ applyKick total amount A H R env start s ∧
      applyKick total amount A H R env start s ≤ 1 := by
  intro s
  unfold applyKick
  by_cases hts : total ≤ start
  · rw [if_pos hts]
    exact henv s
  · rw [if_neg hts]
    by_cases hc : start ≤ s ∧ s < total ∧ s - start < A + H + R
    · rw [if_pos hc]
      have hd := duckValue_bounds h0 h1 hc.2.2
      exact ⟨le_min (henv s).1 hd.1, le_trans (min_le_left _ _) (henv s).2⟩
    · rw [if_neg hc]
      exact henv s

/-- Folding any kick list over an in-bounds envelope stays in `[0, 1]`. -/
theorem foldl_applyKick_bounds {amount : ℚ} (h0 : 0 ≤ amount)
    (h1 : amount ≤ 1) (total A H R : ℕ) :
    ∀ (l : List ℕ) (env : ℕ → ℚ), (∀ s, 0 ≤ env s ∧ env s ≤ 1) →
      ∀ s, 0 ≤ (l.foldl (applyKick total amount A H R) env) s ∧
        (l.foldl (applyKick total amount A H R) env) s ≤ 1
  | [], env, henv => henv
  | k :: t, env, henv => by
    simp only [List.foldl_cons]
    exact foldl_applyKick_bounds h0 h1 total A H R t _
      (applyKick_bounds h0 h1 total A H R env henv k)

/-- Inside the buffer, one kick application is exactly the point-wise
minimum with that kick's individual curve. -/
theorem applyKick_eq_min (total : ℕ) (amount : ℚ) (A H R : ℕ)
    (env : ℕ → ℚ) (start s : ℕ) (hs : s < total) (hb : env s ≤ 1) :
    applyKick total amount A H R env start s =
      min (env s) (kickCurve total amount A H R start s) := by
  unfold applyKick kickCurve
  by_cases hts : total ≤ start
  · rw [if_pos hts]
    have hnc : ¬(start ≤ s ∧ s < total ∧ s - start < A + H + R) := by
      rintro ⟨hss, _, _⟩
      omega
    rw [if_neg hnc, min_eq_left hb]
  · rw [if_neg hts]
    by_cases hc : start ≤ s ∧ s < total ∧ s - start < A + H + R
    · rw [if_pos hc, if_pos hc]
    · rw [if_neg hc, if_neg hc, min_eq_left hb]

/-- Inside the buffer, the folded envelope is the fold of point-wise
minima of the individual kick curves. -/
theorem foldl_applyKick_eq (total : ℕ) (amount : ℚ) (A H R : ℕ) :
    ∀ (l : List ℕ) (env : ℕ → ℚ) (s : ℕ), s < total → env s ≤ 1 →
      (l.foldl (applyKick total amount A H R) env) s =
        l.foldl (fun m k => min m (kickCurve total amount A H R k s)) (env s)
  | [], _, _, _, _ => rfl
  | k :: t, env, s, hs, hb => by
    simp only [List.foldl_cons]
    have hb2 : applyKick total amount A H R env k s ≤ 1 := by
      rw [applyKick_eq_min total amount A H R env k s hs hb]
      exact le_trans (min_le_left _ _) hb
    rw [foldl_applyKick_eq total amount A H R t _ s hs hb2,
        applyKick_eq_min total amount A H R env k s hs hb]

/-- C1: for every parsed MIDI kick list, duration, sample rate, and
`sidechain_amount ∈ [0,1]`, the MIDI-based sidechain envelope has every
sample in `[0, 1]`; at every sample inside the buffer its value is the
minimum of the individual three-phase attack/hold/release curves of the
kick events (never their sum or product); and with no kick events it is
the all-ones curve. -/
theorem sidechain_envelope_spec (kickTimes : List ℚ) (d : ℚ) (rate : ℕ)
    (amount attackMs holdMs releaseMs : ℚ)
    (h0 : 0 ≤ amount) (h1 : amount ≤ 1) :
    (∀ s, 0 ≤ create_sidechain_envelope_from_midi kickTimes d rate amount
        attackMs holdMs releaseMs s ∧
      create_sidechain_envelope_from_midi kickTimes d rate amount
        attackMs holdMs releaseMs s ≤ 1) ∧
    (∀ s, s < pyIntNat (d * rate) →
      create_sidechain_envelope_from_midi kickTimes d rate amount
        attackMs holdMs releaseMs s =
        (kickTimes.map (fun t => pyIntNat (t * rate))).foldl
          (fun m k => min m (kickCurve (pyIntNat (d * rate)) amount
            (msToSamples attackMs rate) (msToSamples holdMs rate)
            (msToSamples releaseMs rate) k s)) 1) ∧
    (kickTimes = [] → ∀ s,
      create_sidechain_envelope_from_midi kickTimes d rate amount
        attackMs holdMs releaseMs s = 1) := by
  by_cases hk : kickTimes = []
  · subst hk
    exact ⟨fun s => ⟨zero_le_one, le_refl 1⟩, fun s _ => rfl, fun _ s => rfl⟩
  · unfold create_sidechain_envelope_from_midi
    rw [if_neg hk]
    refine ⟨?_, ?_, fun hc => absurd hc hk⟩
    · exact foldl_applyKick_bounds h0 h1 _ _ _ _ _ (fun _ => 1)
        (fun s => ⟨zero_le_one, le_refl 1⟩)
    · intro s hs
      exact foldl_applyKick_eq _ _ _ _ _ _ (fun _ => 1) s hs (le_refl 1)

/-- Witness for C1: one kick at time 0, a 10-sample buffer at 1000 Hz,
amount `1/2`, attack/hold/release of 2/3/4 samples, evaluated at
sample 3. -/
theorem sidechain_envelope_spec_witness :
    (0:ℚ) ≤ 1/2 ∧ (1:ℚ)/2 ≤ 1 ∧
    (0 ≤ create_sidechain_envelope_from_midi [0] (1/100) 1000 (1/2)
        2 3 4 3 ∧
      create_sidechain_envelope_from_midi [0] (1/100) 1000 (1/2)
        2 3 4 3 ≤ 1) ∧
    3 < pyIntNat ((1/100 : ℚ) * 1000) ∧
    create_sidechain_envelope_from_midi [0] (1/100) 1000 (1/2) 2 3 4 3 =
      (([(0:ℚ)]).map (fun t => pyIntNat (t * 1000))).foldl
        (fun m k => min m (kickCurve (pyIntNat ((1/100 : ℚ) * 1000)) (1/2)
          (msToSamples 2 1000) (msToSamples 3 1000)
          (msToSamples 4 1000) k 3)) 1 := by
  have hlt : 3 < pyIntNat ((1/100 : ℚ) * 1000) := by
    norm_num [pyIntNat, truncQ]
  have hspec := sidechain_envelope_spec [0] (1/100) 1000 (1/2) 2 3 4
    (by norm_num) (by norm_num)
  exact ⟨by norm_num, by norm_num, hspec.1 3, hlt, hspec.2.1 3 hlt⟩

/-! ## Claim C8 -/

/-- A note with no category mapping draws nothing and leaves the sampler
untouched. -/
theorem get_sample_no_category (st : DrumSampler) (n v : ℕ)
    (m : SelectMethod) (h : st.midiToCategory n = none) :
    get_sample st n v m = (none, st) := by
  simp [get_sample, h]

/-- A note whose category has an empty pool draws nothing and leaves the
sampler untouched. -/
theorem get_sample_empty_pool (st : DrumSampler) (n v : ℕ)
    (m : SelectMethod) (cat : String) (hcat : st.midiToCategory n = some cat)
    (hpool : st.samplePools cat = []) :
    get_sample st n v m = (none, st) := by
  simp [get_sample, hcat, hpool]

/-- Unfolding one event whose draw fails. -/
theorem render_events_cons_none (st st' : DrumSampler) (ev : NoteEvent)
    (t : List NoteEvent) (num : ℕ) (out : ℕ → ℚ)
    (hget : get_sample st ev.note ev.velocity .roundRobin = (none, st')) :
    render_events st (ev :: t) num out = render_events st' t num out := by
  simp only [render_events, List.foldl_cons, hget]

/-- Unfolding one event whose draw succeeds. -/
theorem render_events_cons_some (st st' : DrumSampler) (ev : NoteEvent)
    (t : List NoteEvent) (num : ℕ) (out : ℕ → ℚ) (smp : List ℚ)
    (hget : get_sample st ev.note ev.velocity .roundRobin = (some smp, st')) :
    render_events st (ev :: t) num out =
      render_events st' t num
        (placeSample out (pyIntNat (ev.time * st'.samplerate)) smp num) := by
  simp only [render_events, List.foldl_cons, hget]

/-- Placing a sample adds exactly its contribution at every index. -/
theorem placeSample_eq (out : ℕ → ℚ) (pos : ℕ) (sample : List ℚ)
    (num i : ℕ) :
    placeSample out pos sample num i = out i + sampleContrib num pos sample i := by
  unfold placeSample sampleContrib
  by_cases h : pos ≤ i ∧ i < pos + sample.length ∧ i < num
  · rw [if_pos h, if_pos h]
  · rw [if_neg h, if_neg h, add_zero]

/-- The placed-pair fold with an arbitrary accumulator prefixes the
accumulator to the placed pairs. -/
theorem placed_fold_eq :
    ∀ (events : List NoteEvent) (st : DrumSampler)
      (acc : List (ℕ × List ℚ)),
      (events.foldl
        (fun (a : List (ℕ × List ℚ) × DrumSampler) ev =>
          match get_sample a.2 ev.note ev.velocity .roundRobin with
          | (none, st') => (a.1, st')
          | (some sample, st') =>
            (a.1 ++ [(pyIntNat (ev.time * st'.samplerate), sample)], st'))
        (acc, st)).1 = acc ++ placedSamples st events
  | [], st, acc => by
    simp [placedSamples]
  | ev :: t, st, acc => by
    unfold placedSamples
    simp only [List.foldl_cons]
    rcases hget : get_sample st ev.note ev.velocity .roundRobin with ⟨o, st'⟩
    cases o with
    | none =>
      simp only [hget]
      rw [placed_fold_eq t st' acc, placed_fold_eq t st' []]
      simp
    | some smp =>
      simp only [hget]
      rw [placed_fold_eq t st' (acc ++ [(pyIntNat (ev.time * st'.samplerate), smp)]),
          placed_fold_eq t st' ([] ++ [(pyIntNat (ev.time * st'.samplerate), smp)])]
      simp

/-- Unfolding the placed pairs of one event whose draw fails. -/
theorem placedSamples_cons_none (st st' : DrumSampler) (ev : NoteEvent)
    (t : List NoteEvent)
    (hget : get_sample st ev.note ev.velocity .roundRobin = (none, st')) :
    placedSamples st (ev :: t) = placedSamples st' t := by
  unfold placedSamples
  simp only [List.foldl_cons, hget]

/-- Unfolding the placed pairs of one event whose draw succeeds. -/
theorem placedSamples_cons_some (st st' : DrumSampler) (ev : NoteEvent)
    (t : List NoteEvent) (smp : List ℚ)
    (hget : get_sample st ev.note ev.velocity .roundRobin = (some smp, st')) :
    placedSamples st (ev :: t) =
      (pyIntNat (ev.time * st'.samplerate), smp) :: placedSamples st' t := by
  unfold placedSamples
  simp only [List.foldl_cons, hget]
  rw [placed_fold_eq t st' ([] ++ [(pyIntNat (ev.time * st'.samplerate), smp)]),
      placed_fold_eq t st' []]
  simp

/-- The rendered buffer is the starting buffer plus the sum of the
contributions of the placed samples. -/
theorem render_events_sum :
    ∀ (events : List NoteEvent) (st : DrumSampler) (num : ℕ)
      (out : ℕ → ℚ) (i : ℕ),
      (render_events st events num out).1 i =
        out i + ((placedSamples st events).map
          (fun p => sampleContrib num p.1 p.2 i)).sum
  | [], st, num, out, i => by
    simp [render_events, placedSamples]
  | ev :: t, st, num, out, i => by
    rcases hget : get_sample st ev.note ev.velocity .roundRobin with ⟨o, st'⟩
    cases o with
    | none =>
      rw [render_events_cons_none st st' ev t num out hget,
          placedSamples_cons_none st st' ev t hget]
      exact render_events_sum t st' num out i
    | some smp =>
      rw [render_events_cons_some st st' ev t num out smp hget,
          placedSamples_cons_some st st' ev t smp hget]
      simp only [List.map_cons, List.sum_cons]
      rw [render_events_sum t st' num _ i, placeSample_eq]
      ring

/-- The all-zero buffer has peak zero. -/
theorem bufPeak_zero (n : ℕ) : bufPeak (fun _ => (0:ℚ)) n = 0 := by
  unfold bufPeak peakAbs
  induction n with
  | zero => rfl
  | succ m ih =>
    rw [List.range_succ, List.map_append, List.foldl_append, ih]
    simp

/-- C8: in sample-based drum rendering, a note event whose MIDI note has
no category mapping, or whose category's pool is empty, is silently
dropped and contributes nothing; the rendered buffer is the sum of the
individually placed samples at their sample-accurate positions
(overlapping hits add); and the final buffer is rescaled so its peak
becomes `0.95` exactly when its peak exceeds `0.95`, and is otherwise
left untouched. -/
theorem render_drums_spec :
    (∀ (st : DrumSampler) (ev : NoteEvent) (rest : List NoteEvent)
       (num : ℕ) (out : ℕ → ℚ),
       (st.midiToCategory ev.note = none ∨
        ∃ cat, st.midiToCategory ev.note = some cat ∧
          st.samplePools cat = []) →
       render_events st (ev :: rest) num out = render_events st rest num out) ∧
    (∀ (st : DrumSampler) (events : List NoteEvent) (num : ℕ)
       (out : ℕ → ℚ) (i : ℕ),
       (render_events st events num out).1 i =
         out i + ((placedSamples st events).map
           (fun p => sampleContrib num p.1 p.2 i)).sum) ∧
    (∀ (st : DrumSampler) (events : List NoteEvent) (dur : ℚ),
       (¬(bufPeak (render_events st events (pyIntNat (dur * st.samplerate))
             (fun _ => 0)).1 (pyIntNat (dur * st.samplerate)) > 19/20) →
          render_midi st events dur =
            (render_events st events (pyIntNat (dur * st.samplerate))
              (fun _ => 0)).1) ∧
       (bufPeak (render_events st events (pyIntNat (dur * st.samplerate))
           (fun _ => 0)).1 (pyIntNat (dur * st.samplerate)) > 19/20 →
          bufPeak (render_midi st events dur)
            (pyIntNat (dur * st.samplerate)) = 19/20)) := by
  refine ⟨?_, fun st events num out i => render_events_sum events st num out i, ?_⟩
  · intro st ev rest num out h
    have hget : get_sample st ev.note ev.velocity .roundRobin = (none, st) := by
      rcases h with h | ⟨cat, hcat, hpool⟩
      · exact get_sample_no_category st ev.note ev.velocity .roundRobin h
      · exact get_sample_empty_pool st ev.note ev.velocity .roundRobin cat hcat hpool
    exact render_events_cons_none st st ev rest num out hget
  · intro st events dur
    constructor
    · intro hpk
      unfold render_midi
      rw [if_neg hpk]
    · intro hpk
      unfold render_midi
      rw [if_pos hpk]
      have hp0 : (0:ℚ) < bufPeak (render_events st events
          (pyIntNat (dur * st.samplerate)) (fun _ => 0)).1
          (pyIntNat (dur * st.samplerate)) := lt_trans (by norm_num) hpk
      have hc : (0:ℚ) ≤ (19/20) / bufPeak (render_events st events
          (pyIntNat (dur * st.samplerate)) (fun _ => 0)).1
          (pyIntNat (dur * st.samplerate)) :=
        div_nonneg (by norm_num) (le_of_lt hp0)
      rw [bufPeak_mul _ _ _ hc, mul_comm, div_mul_cancel₀ _ (ne_of_gt hp0)]

/-- Witness for C8: a sampler whose note map is empty drops a concrete
note event (it contributes nothing), and rendering an empty event list
(raw peak `0`, not above `0.95`) leaves the buffer untouched. -/
theorem render_drums_spec_witness :
    (DrumSampler.mk 44100 (fun _ => none) (fun _ => ([] : List (List ℚ × ℕ)))
        (fun _ => 0) (fun a _ _ => a)).midiToCategory 36 = none ∧
    render_events (DrumSampler.mk 44100 (fun _ => none) (fun _ => [])
        (fun _ => 0) (fun a _ _ => a)) [⟨0, 36, 100⟩] 5 (fun _ => 0) =
      render_events (DrumSampler.mk 44100 (fun _ => none) (fun _ => [])
        (fun _ => 0) (fun a _ _ => a)) [] 5 (fun _ => 0) ∧
    render_midi (DrumSampler.mk 44100 (fun _ => none) (fun _ => [])
        (fun _ => 0) (fun a _ _ => a)) [] (1/44100) =
      (render_events (DrumSampler.mk 44100 (fun _ => none) (fun _ => [])
          (fun _ => 0) (fun a _ _ => a)) []
        (pyIntNat ((1/44100 : ℚ) * ((DrumSampler.mk 44100 (fun _ => none)
          (fun _ => []) (fun _ => 0)
          (fun a _ _ => a)).samplerate : ℕ)))
        (fun _ => 0)).1 := by
  have hz : ∀ n : ℕ,
      ¬(bufPeak ((render_events (DrumSampler.mk 44100 (fun _ => none)
          (fun _ => []) (fun _ => 0) (fun a _ _ => a)) [] n
          (fun _ => 0)).1) n > 19/20) := by
    intro n
    have hr : (render_events (DrumSampler.mk 44100 (fun _ => none)
        (fun _ => []) (fun _ => 0) (fun a _ _ => a)) [] n
        (fun _ => 0)).1 = fun _ => (0:ℚ) := rfl
    rw [hr, bufPeak_zero]
    norm_num
  refine ⟨rfl, ?_, ?_⟩
  · exact render_drums_spec.1 _ ⟨0, 36, 100⟩ [] 5 (fun _ => 0) (Or.inl rfl)
  · exact (render_drums_spec.2.2 _ [] (1/44100)).1 (hz _)

/-! ## Claim C7 -/

/-- The kick waveform is strictly positive at its second sample: the
sine argument `2π·60·(0.2/8819) = π·(24/8819)` lies in `(0, π)`. -/
theorem fallback_kick_one_pos : 0 < fallback_kick 1 := by
  unfold fallback_kick
  apply mul_pos
  · have harg : 2 * Real.pi * 60 * ((1/5 : ℝ) * (1:ℕ) / 8819) =
        Real.pi * (24/8819) := by
      push_cast
      ring
    rw [harg]
    apply Real.sin_pos_of_pos_of_lt_pi
    · exact mul_pos Real.pi_pos (by norm_num)
    · calc Real.pi * (24/8819) < Real.pi * 1 :=
            mul_lt_mul_of_pos_left (by norm_num) Real.pi_pos
        _ = Real.pi := mul_one _
  · exact Real.exp_pos _

/-- At sample 1 only the first beat's kick contributes. -/
theorem fallback_raw_one : fallback_raw 1 = fallback_kick 1 := by
  unfold fallback_raw
  rw [Finset.sum_eq_single 0]
  · norm_num
  · intro k hk hne
    rw [if_neg]
    rintro ⟨hc1, _⟩
    omega
  · intro h0
    exact absurd (Finset.mem_range.mpr (by norm_num)) h0

/-- The un-normalized fallback buffer has strictly positive peak. -/
theorem fallback_peak_raw_pos : 0 < fallback_peak_raw := by
  have hk := fallback_kick_one_pos
  have h1 : fallback_raw 1 ∈ (List.range 1323000).map fallback_raw :=
    List.mem_map_of_mem fallback_raw (List.mem_range.mpr (by norm_num))
  have h2 : |fallback_raw 1| ≤ fallback_peak_raw :=
    abs_mem_le_peakAbs _ _ h1
  have h3 : fallback_raw 1 ≤ |fallback_raw 1| := le_abs_self _
  rw [fallback_raw_one] at h2 h3
  linarith

/-- C7: `create_fallback_audio` with default parameters produces the one
fixed 1323000-sample (30 s at 44100 Hz) track determined by the 120-BPM
kick placement (the model is a pure function of its parameters, so every
invocation yields this same buffer): two identical stereo channels, each
the raw kick-sum buffer scaled by `0.8 / peak`, with output peak exactly
`0.8`. -/
theorem fallback_audio_spec :
    create_fallback_audio.1 = create_fallback_audio.2 ∧
    fallback_total_samples = 1323000 ∧
    0 < fallback_peak_raw ∧
    (∀ i, fallback_mono i = fallback_raw i * ((4/5) / fallback_peak_raw)) ∧
    bufPeak fallback_mono 1323000 = 4/5 := by
  have hpos := fallback_peak_raw_pos
  have hmono : ∀ i, fallback_mono i =
      fallback_raw i * ((4/5) / fallback_peak_raw) := by
    intro i
    unfold fallback_mono
    rw [if_pos hpos]
  refine ⟨rfl, ?_, hpos, hmono, ?_⟩
  · norm_num [fallback_total_samples, pyIntNat, truncQ]
    rfl
  · have hfun : fallback_mono =
        fun i => fallback_raw i * ((4/5) / fallback_peak_raw) :=
      funext hmono
    rw [hfun, bufPeak_mul _ _ _
      (div_nonneg (by norm_num) (le_of_lt hpos))]
    rw [show bufPeak fallback_raw 1323000 = fallback_peak_raw from rfl]
    rw [mul_comm, div_mul_cancel₀ _ (ne_of_gt hpos)]
